import Mathlib

/-!
Verification of the redlock distributed-lock client (TypeScript source in
`src/index.ts` and `src/scripts.ts`) against its natural-language
specification.

Shallow embedding conventions:
* JavaScript numbers are modelled as rationals (`ℚ`); timestamps and
  durations are `ℚ` values, `Math.floor` is `Int.floor`, `Math.round` is
  `jsRound` (floor of `x + 1/2`, i.e. round-half-up as in JS).
* The constructor's `new Set(clients)` is modelled by `jsSetOf`, a left fold
  of insertion-ordered de-duplicating inserts, exactly as a JS `Set` is
  populated from an iterable.
* `_attemptOperationOnClient` is modelled by `attemptOperationOnClient`,
  a pure function from the script reply to the client's vote.
* The vote tally of `_attemptOperation` is modelled by `tally`, a fold over
  the arrival-ordered list of client results.
* The retry loop of `_execute` is modelled by `execLoop`, a fuel-indexed
  interpreter of the `while (attempts.length < maxAttempts)` loop, where the
  outcome of each attempt (the decided vote) is an oracle `Nat → Vote`.
* Mutation of `Lock.expiration` is modelled by explicit state passing:
  `release` and `extend` return the updated lock record together with the
  operation's result; `new Lock(...)` allocation is modelled by a caller
  supplied fresh object id, distinct from every live object's id.
-/

/-- Abstract identity of one redis client (one member of `this.clients`). -/
abbrev Client := Nat

/-- `Math.round` in JavaScript: round half away from zero for positive
halves, i.e. `⌊x + 1/2⌋`. -/
def jsRound (q : ℚ) : ℤ := ⌊q + 1/2⌋

/-- The duration validation shared by `acquire`, `extend` and `using`:
`Math.floor(duration) === duration`. -/
def jsIsIntDuration (d : ℚ) : Bool := ((⌊d⌋ : ℚ)) == d

/-- `acquire` throws its synchronous `Error` exactly when
`Math.floor(duration) !== duration` (src/index.ts lines 217-219). -/
def acquireThrowsSync (d : ℚ) : Bool := !(jsIsIntDuration d)

/-- The drift computed on success:
`Math.round(driftFactor * duration) + 2` (src/index.ts line 233). -/
def driftOf (driftFactor duration : ℚ) : ℤ := jsRound (driftFactor * duration) + 2

/-- The expiration stored in the returned `Lock`:
`start + duration - drift` (src/index.ts line 235). -/
def lockExpiration (start duration driftFactor : ℚ) : ℚ :=
  start + duration - (driftOf driftFactor duration : ℚ)

/-- Claim C2: the claim states that `acquire` fails synchronously iff the
duration is not an integer ≥ 1.  The code only checks integrality
(`Math.floor(duration) !== duration`), so `duration = 0` refutes the claim:
the synchronous check passes although 0 is not ≥ 1. -/
theorem C2_counterexample :
    ¬ (acquireThrowsSync 0 = true ↔ ¬ ((⌊(0 : ℚ)⌋ : ℚ) = 0 ∧ (1 : ℚ) ≤ 0)) := by
  decide

/-- Claim C2 (amended): `acquire` fails synchronously exactly when the
duration is not an integer (`Math.floor(duration) ≠ duration`); the
non-positive integers 0 and −5 pass the synchronous validation, so the
servers are contacted for them. -/
theorem C2_amended :
    (∀ d : ℚ, acquireThrowsSync d = true ↔ (⌊d⌋ : ℚ) ≠ d)
    ∧ acquireThrowsSync 0 = false ∧ acquireThrowsSync (-5) = false := by
  refine ⟨fun d => ?_, by decide, by decide⟩
  simp [acquireThrowsSync, jsIsIntDuration]

/-- Claim C3: a successful acquire with duration `d` starting at
`attemptStart` returns a lock whose expiration is
`attemptStart + d − (round(f · d) + 2)`; when the drift factor `f` and the
duration are nonnegative this is at most `attemptStart + d − 2`. -/
theorem C3_acquire_expiration (start d f : ℚ) (hf : 0 ≤ f) (hd : 0 ≤ d) :
    lockExpiration start d f = start + d - ((jsRound (f * d) : ℚ) + 2)
    ∧ lockExpiration start d f ≤ start + d - 2 := by
  constructor
  · simp [lockExpiration, driftOf]
  · have hfd : (0 : ℚ) ≤ f * d := mul_nonneg hf hd
    have hround : (0 : ℤ) ≤ jsRound (f * d) := by
      have : (0 : ℤ) = ⌊(1 : ℚ)/2⌋ := by norm_num
      rw [this]
      exact Int.floor_le_floor (by linarith)
    have : (0 : ℚ) ≤ (jsRound (f * d) : ℚ) := by exact_mod_cast hround
    simp only [lockExpiration, driftOf]
    push_cast
    linarith

/-- Witness for C3 at `start = 0`, `d = 1000`, `f = 1/100`. -/
theorem C3_acquire_expiration_witness :
    (0 : ℚ) ≤ 1/100 ∧ (0 : ℚ) ≤ 1000
    ∧ (lockExpiration 0 1000 (1/100) = 0 + 1000 - ((jsRound ((1/100) * 1000) : ℚ) + 2)
       ∧ lockExpiration 0 1000 (1/100) ≤ 0 + 1000 - 2) :=
  ⟨by norm_num, by norm_num, C3_acquire_expiration 0 1000 (1/100) (by norm_num) (by norm_num)⟩

/-- One insertion into a JS `Set`: a no-op when the element is present,
otherwise appended at the end (insertion order is preserved). -/
def jsSetInsert (s : List Client) (c : Client) : List Client :=
  if c ∈ s then s else s ++ [c]

/-- `new Set(clients)` in the constructor (src/index.ts line 151): the
iterable is folded into an insertion-ordered de-duplicated list. -/
def jsSetOf (clients : List Client) : List Client :=
  clients.foldl jsSetInsert []

/-- The constructor throws iff `this.clients.size === 0`
(src/index.ts lines 152-154). -/
def constructorThrows (clients : List Client) : Bool :=
  (jsSetOf clients).length == 0

/-- `membershipSize` of an attempt: `clientResults.length`, one result per
member of `this.clients` (src/index.ts line 370). -/
def membershipSize (clients : List Client) : Nat := (jsSetOf clients).length

/-- `quorumSize = Math.floor(membership / 2) + 1` (src/index.ts line 371). -/
def quorumOf (membership : Nat) : Nat := membership / 2 + 1

/-- The quorum size of an attempt over the deduplicated client set. -/
def quorumSize (clients : List Client) : Nat := quorumOf (membershipSize clients)

theorem mem_jsSetInsert {s : List Client} {a c : Client} :
    c ∈ jsSetInsert s a ↔ c ∈ s ∨ c = a := by
  unfold jsSetInsert
  by_cases h : a ∈ s
  · rw [if_pos h]
    constructor
    · exact fun hc => Or.inl hc
    · rintro (hc | rfl)
      · exact hc
      · exact h
  · rw [if_neg h]
    simp [List.mem_append]

theorem nodup_jsSetInsert {s : List Client} {a : Client} (h : s.Nodup) :
    (jsSetInsert s a).Nodup := by
  unfold jsSetInsert
  by_cases ha : a ∈ s
  · rwa [if_pos ha]
  · rw [if_neg ha]
    rw [List.nodup_append]
    refine ⟨h, List.nodup_singleton a, ?_⟩
    intro x hx hxa
    rw [List.mem_singleton] at hxa
    exact ha (hxa ▸ hx)

theorem length_le_jsSetInsert (s : List Client) (a : Client) :
    s.length ≤ (jsSetInsert s a).length := by
  unfold jsSetInsert
  split <;> simp

theorem jsSetInsert_length_le (s : List Client) (a : Client) :
    (jsSetInsert s a).length ≤ s.length + 1 := by
  unfold jsSetInsert
  split <;> simp

theorem length_le_foldl_jsSetInsert (l : List Client) (s : List Client) :
    s.length ≤ (l.foldl jsSetInsert s).length := by
  induction l generalizing s with
  | nil => simp
  | cons a t ih =>
    simp only [List.foldl_cons]
    exact le_trans (length_le_jsSetInsert s a) (ih (jsSetInsert s a))

theorem mem_foldl_jsSetInsert (l : List Client) (s : List Client) (c : Client) :
    c ∈ l.foldl jsSetInsert s ↔ c ∈ s ∨ c ∈ l := by
  induction l generalizing s with
  | nil => simp
  | cons a t ih =>
    simp only [List.foldl_cons, ih, mem_jsSetInsert, List.mem_cons]
    tauto

theorem nodup_foldl_jsSetInsert (l : List Client) (s : List Client) (hs : s.Nodup) :
    (l.foldl jsSetInsert s).Nodup := by
  induction l generalizing s with
  | nil => simpa
  | cons a t ih =>
    simp only [List.foldl_cons]
    exact ih _ (nodup_jsSetInsert hs)

/-- Claim C10: the constructor stores the clients in a `Set`, so duplicates
collapse: three references to one client give `membershipSize = 1` and
`quorumSize = 1`; the stored set has no duplicates and exactly the distinct
members of the input; and the constructor rejects exactly the inputs whose
deduplication is empty, which are exactly the empty inputs. -/
theorem C10_clients_deduplicated :
    (∀ c : Client, jsSetOf [c, c, c] = [c]
       ∧ membershipSize [c, c, c] = 1 ∧ quorumSize [c, c, c] = 1)
    ∧ (∀ l : List Client, (jsSetOf l).Nodup ∧ ∀ c, c ∈ jsSetOf l ↔ c ∈ l)
    ∧ (∀ l : List Client, constructorThrows l = true ↔ jsSetOf l = [])
    ∧ (∀ l : List Client, jsSetOf l = [] ↔ l = []) := by
  refine ⟨fun c => ?_,
    fun l => ⟨nodup_foldl_jsSetInsert l [] (by simp),
      fun c => by simpa using mem_foldl_jsSetInsert l [] c⟩,
    fun l => ?_, fun l => ?_⟩
  · have h3 : jsSetOf [c, c, c] = [c] := by
      simp [jsSetOf, jsSetInsert]
    exact ⟨h3, by simp [membershipSize, h3], by simp [quorumSize, quorumOf, membershipSize, h3]⟩
  · simp [constructorThrows, List.length_eq_zero]
  · constructor
    · intro h
      cases l with
      | nil => rfl
      | cons a t =>
        exfalso
        have h1 : (1 : Nat) ≤ (jsSetOf (a :: t)).length := by
          have h2 := length_le_foldl_jsSetInsert t (jsSetInsert [] a)
          simpa [jsSetOf, jsSetInsert] using h2
        rw [h] at h1
        simp at h1
    · rintro rfl
      rfl

/-- One client's decided vote within an attempt. -/
inductive Vote where
  | voteFor
  | voteAgainst
deriving DecidableEq

/-- One step of `onResultResolve` (src/index.ts lines 382-390): a `for`
vote is added to `stats.votesFor` (a JS `Set`), an `against` vote is added
to `stats.votesAgainst` (a JS `Map`, modelled here by its key list). -/
def tallyStep (st : List Client × List Client) (r : Client × Vote) :
    List Client × List Client :=
  match r.2 with
  | .voteFor => (jsSetInsert st.1 r.1, st.2)
  | .voteAgainst => (st.1, jsSetInsert st.2 r.1)

/-- The tally of an attempt after the given arrival-ordered list of client
results has been processed, starting from the empty stats record
(src/index.ts lines 369-374). -/
def tally (results : List (Client × Vote)) : List Client × List Client :=
  results.foldl tallyStep ([], [])

theorem tally_len_bound (l : List (Client × Vote)) (st : List Client × List Client) :
    (List.foldl tallyStep st l).1.length + (List.foldl tallyStep st l).2.length
      ≤ st.1.length + st.2.length + l.length := by
  induction l generalizing st with
  | nil => simp
  | cons r t ih =>
    simp only [List.foldl_cons]
    refine le_trans (ih (tallyStep st r)) ?_
    have h1 : (tallyStep st r).1.length + (tallyStep st r).2.length
        ≤ st.1.length + st.2.length + 1 := by
      cases hr : r.2 <;> simp only [tallyStep, hr]
      · have := jsSetInsert_length_le st.1 r.1
        omega
      · have := jsSetInsert_length_le st.2 r.1
        omega
    simp only [List.length_cons]
    omega

theorem tally_mono (l : List (Client × Vote)) (st : List Client × List Client) :
    st.1.length ≤ (List.foldl tallyStep st l).1.length
    ∧ st.2.length ≤ (List.foldl tallyStep st l).2.length := by
  induction l generalizing st with
  | nil => simp
  | cons r t ih =>
    simp only [List.foldl_cons]
    have h := ih (tallyStep st r)
    have h1 : st.1.length ≤ (tallyStep st r).1.length
        ∧ st.2.length ≤ (tallyStep st r).2.length := by
      cases hr : r.2
      · exact ⟨by simpa [tallyStep, hr] using length_le_jsSetInsert st.1 r.1,
          by simp [tallyStep, hr]⟩
      · exact ⟨by simp [tallyStep, hr],
          by simpa [tallyStep, hr] using length_le_jsSetInsert st.2 r.1⟩
    exact ⟨le_trans h1.1 h.1, le_trans h1.2 h.2⟩

theorem tally_mem_origin (l : List (Client × Vote)) (st : List Client × List Client)
    (c : Client) :
    (c ∈ (List.foldl tallyStep st l).1 → c ∈ st.1 ∨ (c, Vote.voteFor) ∈ l)
    ∧ (c ∈ (List.foldl tallyStep st l).2 → c ∈ st.2 ∨ (c, Vote.voteAgainst) ∈ l) := by
  induction l generalizing st with
  | nil => simp
  | cons r t ih =>
    simp only [List.foldl_cons]
    constructor
    · intro hc
      rcases (ih (tallyStep st r)).1 hc with h1 | h1
      · cases hr : r.2
        · simp only [tallyStep, hr] at h1
          rcases mem_jsSetInsert.mp h1 with h2 | h2
          · exact Or.inl h2
          · refine Or.inr ?_
            subst h2
            rw [← hr, Prod.mk.eta]
            exact List.mem_cons_self r t
        · simp only [tallyStep, hr] at h1
          exact Or.inl h1
      · exact Or.inr (List.mem_cons_of_mem r h1)
    · intro hc
      rcases (ih (tallyStep st r)).2 hc with h1 | h1
      · cases hr : r.2
        · simp only [tallyStep, hr] at h1
          exact Or.inl h1
        · simp only [tallyStep, hr] at h1
          rcases mem_jsSetInsert.mp h1 with h2 | h2
          · exact Or.inl h2
          · refine Or.inr ?_
            subst h2
            rw [← hr, Prod.mk.eta]
            exact List.mem_cons_self r t
      · exact Or.inr (List.mem_cons_of_mem r h1)

theorem tally_nodup (l : List (Client × Vote)) (st : List Client × List Client)
    (h1 : st.1.Nodup) (h2 : st.2.Nodup) :
    (List.foldl tallyStep st l).1.Nodup ∧ (List.foldl tallyStep st l).2.Nodup := by
  induction l generalizing st with
  | nil => exact ⟨h1, h2⟩
  | cons r t ih =>
    simp only [List.foldl_cons]
    refine ih (tallyStep st r) ?_ ?_
    · cases hr : r.2 <;> simp only [tallyStep, hr]
      · exact nodup_jsSetInsert h1
      · exact h1
    · cases hr : r.2 <;> simp only [tallyStep, hr]
      · exact h2
      · exact nodup_jsSetInsert h2

/-- Claim C7: over the arrival-ordered results `res` of one attempt (one
result per distinct client, so `membershipSize = res.length`):
the quorum is `⌊N/2⌋ + 1`; at every moment (i.e. after any prefix `p` of
`res`) the tally satisfies `|for| + |against| ≤ N` with each client in at
most one of the two tallies and no duplicates; and the `for` and `against`
thresholds cannot both be reached in the same attempt, so at most one
decision can fire. -/
theorem C7_attempt_quorum (res : List (Client × Vote))
    (hnd : (res.map Prod.fst).Nodup) :
    quorumOf res.length = res.length / 2 + 1
    ∧ (∀ p t : List (Client × Vote), p ++ t = res →
        (tally p).1.length + (tally p).2.length ≤ res.length)
    ∧ (∀ p t : List (Client × Vote), p ++ t = res →
        (tally p).1.Nodup ∧ (tally p).2.Nodup
        ∧ ∀ c, c ∈ (tally p).1 → c ∈ (tally p).2 → False)
    ∧ (∀ p1 t1 p2 t2 : List (Client × Vote), p1 ++ t1 = res → p2 ++ t2 = res →
        ¬ (quorumOf res.length ≤ (tally p1).1.length
            ∧ quorumOf res.length ≤ (tally p2).2.length)) := by
  have hsum : ∀ p : List (Client × Vote),
      (tally p).1.length + (tally p).2.length ≤ p.length := by
    intro p
    simpa using tally_len_bound p ([], [])
  refine ⟨rfl, ?_, ?_, ?_⟩
  · intro p t hp
    have h := hsum p
    have hlen : p.length ≤ res.length := by
      rw [← hp]
      simp
    omega
  · intro p t hp
    obtain ⟨hn1, hn2⟩ := tally_nodup p ([], []) (by simp) (by simp)
    refine ⟨hn1, hn2, ?_⟩
    intro c hc1 hc2
    have o1 := (tally_mem_origin p ([], []) c).1 hc1
    have o2 := (tally_mem_origin p ([], []) c).2 hc2
    simp only [List.not_mem_nil, false_or] at o1 o2
    have m1 : (c, Vote.voteFor) ∈ res := by
      rw [← hp]
      exact List.mem_append_left t o1
    have m2 : (c, Vote.voteAgainst) ∈ res := by
      rw [← hp]
      exact List.mem_append_left t o2
    have heq := List.inj_on_of_nodup_map hnd m1 m2 rfl
    exact Vote.noConfusion (congrArg Prod.snd heq)
  · intro p1 t1 p2 t2 h1 h2 hq
    obtain ⟨hq1, hq2⟩ := hq
    have hm1 : (tally p1).1.length ≤ (tally res).1.length := by
      simp only [tally, ← h1, List.foldl_append]
      exact (tally_mono t1 (List.foldl tallyStep ([], []) p1)).1
    have hm2 : (tally p2).2.length ≤ (tally res).2.length := by
      simp only [tally, ← h2, List.foldl_append]
      exact (tally_mono t2 (List.foldl tallyStep ([], []) p2)).2
    have hfull := hsum res
    simp only [quorumOf] at hq1 hq2
    omega

/-- Witness for C7 at a concrete three-client attempt. -/
theorem C7_attempt_quorum_witness :
    (([((0 : Client), Vote.voteFor), (1, Vote.voteAgainst),
        (2, Vote.voteFor)].map Prod.fst).Nodup)
    ∧ quorumOf ([((0 : Client), Vote.voteFor), (1, Vote.voteAgainst),
        (2, Vote.voteFor)] : List (Client × Vote)).length
          = ([((0 : Client), Vote.voteFor), (1, Vote.voteAgainst),
        (2, Vote.voteFor)] : List (Client × Vote)).length / 2 + 1 :=
  ⟨by decide, (C7_attempt_quorum
    [((0 : Client), Vote.voteFor), (1, Vote.voteAgainst), (2, Vote.voteFor)] (by decide)).1⟩

/-- The reply observed from one client's scripted command invocation. -/
inductive ClientReply where
  | num (n : ℤ)
  | nonNumber
  | thrown
deriving DecidableEq

/-- The error recorded with an against vote. -/
inductive RedError where
  | resourceLocked (applied : ℤ) (requested : ℕ)
  | unexpectedType
  | transport
deriving DecidableEq

/-- One client's typed outcome within an attempt. -/
inductive ClientVote where
  | voteFor (value : ℤ)
  | voteAgainst (e : RedError)
deriving DecidableEq

/-- `_attemptOperationOnClient` (src/index.ts lines 427-470): a rejected
RPC and a non-number reply become against votes; an integer reply `r` is a
`for` vote iff `r === keys.length`, otherwise it is an against vote
carrying a `ResourceLockedError`.  The same code path handles `acquireLock`,
`extendLock` and `releaseLock` replies. -/
def attemptOperationOnClient (keysLen : ℕ) (reply : ClientReply) : ClientVote :=
  match reply with
  | .thrown => .voteAgainst .transport
  | .nonNumber => .voteAgainst .unexpectedType
  | .num r =>
      if r = (keysLen : ℤ) then .voteFor r
      else .voteAgainst (.resourceLocked r keysLen)

/-- Claim C1: the claim states that a release reply of 0 is never treated
as a failure vote.  It is: with one requested key a reply of 0 differs from
`keys.length` and becomes an against vote with a `ResourceLockedError`. -/
theorem C1_counterexample :
    attemptOperationOnClient 1 (ClientReply.num 0)
      = ClientVote.voteAgainst (RedError.resourceLocked 0 1) := by
  decide

/-- `maxAttempts` of `_execute` (src/index.ts line 318): `retryCount === -1`
is treated as Infinity (`none`), otherwise `retryCount + 1`. -/
def maxAttemptsOf (retryCount : ℤ) : Option ℤ :=
  if retryCount = -1 then none else some (retryCount + 1)

/-- The loop guard `attempts.length < maxAttempts`; `none` is Infinity. -/
def underMax (made : ℕ) : Option ℤ → Bool
  | none => true
  | some m => decide ((made : ℤ) < m)

/-- Observable outcome of the retry loop of `_execute`, carrying the length
of the `attempts` list at that point. -/
inductive ExecOutcome where
  | success (attemptsMade : ℕ)
  | failure (attemptsMade : ℕ)
  | running (attemptsMade : ℕ)
deriving DecidableEq

/-- Fuel-indexed interpreter of the retry loop of `_execute`
(src/index.ts lines 320-351).  `votes i` is the decided vote of attempt
number `i` (0-based); on a `for` vote the loop returns, on an `against`
vote it retries while the guard holds, and when the guard fails it throws
`ExecutionError` with the attempts made so far (`failure`). -/
def execLoop (ma : Option ℤ) (votes : ℕ → Vote) : ℕ → ℕ → ExecOutcome
  | 0, made => if underMax made ma then .running made else .failure made
  | fuel + 1, made =>
    if underMax made ma then
      match votes made with
      | .voteFor => .success (made + 1)
      | .voteAgainst => execLoop ma votes fuel (made + 1)
    else .failure made

/-- `_execute` with the given `retryCount`, starting with no attempts. -/
def execute (retryCount : ℤ) (votes : ℕ → Vote) (fuel : ℕ) : ExecOutcome :=
  execLoop (maxAttemptsOf retryCount) votes fuel 0

/-- The number of attempts made at an observed outcome. -/
def attemptsMade : ExecOutcome → ℕ
  | .success n => n
  | .failure n => n
  | .running n => n

theorem underMax_some_iff (made : ℕ) (m : ℤ) :
    underMax made (some m) = true ↔ (made : ℤ) < m := by
  simp [underMax]

theorem execLoop_le (m : ℤ) (votes : ℕ → Vote) (fuel : ℕ) :
    ∀ made : ℕ, (made : ℤ) ≤ m →
      (attemptsMade (execLoop (some m) votes fuel made) : ℤ) ≤ m := by
  induction fuel with
  | zero =>
    intro made h
    simp only [execLoop]
    by_cases hu : underMax made (some m) = true
    · simp [hu, attemptsMade, h]
    · simp [hu, attemptsMade, h]
  | succ fuel ih =>
    intro made h
    simp only [execLoop]
    by_cases hu : underMax made (some m) = true
    · have hlt : (made : ℤ) < m := (underMax_some_iff made m).mp hu
      simp only [hu, if_true]
      cases hv : votes made
      · simp only [attemptsMade]
        omega
      · exact ih (made + 1) (by omega)
    · simp [hu, attemptsMade, h]

theorem execLoop_failure_eq (m : ℤ) (votes : ℕ → Vote) (fuel : ℕ) :
    ∀ made n : ℕ, (made : ℤ) ≤ m →
      execLoop (some m) votes fuel made = ExecOutcome.failure n → (n : ℤ) = m := by
  induction fuel with
  | zero =>
    intro made n h hf
    simp only [execLoop] at hf
    by_cases hu : underMax made (some m) = true
    · rw [if_pos hu] at hf
      exact absurd hf (by simp)
    · rw [if_neg hu] at hf
      have hnl : ¬ (made : ℤ) < m := fun hc => hu ((underMax_some_iff made m).mpr hc)
      injection hf with h2
      omega
  | succ fuel ih =>
    intro made n h hf
    simp only [execLoop] at hf
    by_cases hu : underMax made (some m) = true
    · have hlt : (made : ℤ) < m := (underMax_some_iff made m).mp hu
      rw [if_pos hu] at hf
      cases hv : votes made
      · rw [hv] at hf
        simp at hf
      · rw [hv] at hf
        exact ih (made + 1) n (by omega) hf
    · rw [if_neg hu] at hf
      have hnl : ¬ (made : ℤ) < m := fun hc => hu ((underMax_some_iff made m).mpr hc)
      injection hf with h2
      omega

theorem execLoop_all_against (m : ℤ) (votes : ℕ → Vote)
    (hv : ∀ i, votes i = Vote.voteAgainst) (fuel : ℕ) :
    ∀ made : ℕ, (made : ℤ) ≤ m → m ≤ (made : ℤ) + fuel →
      execLoop (some m) votes fuel made = ExecOutcome.failure m.toNat := by
  induction fuel with
  | zero =>
    intro made h1 h2
    have heq : (made : ℤ) = m := by omega
    have hu : ¬ underMax made (some m) = true := by
      intro hc
      have := (underMax_some_iff made m).mp hc
      omega
    simp only [execLoop, hu, Bool.false_eq_true, if_neg, if_false]
    congr 1
    omega
  | succ fuel ih =>
    intro made h1 h2
    simp only [execLoop]
    by_cases hu : underMax made (some m) = true
    · have hlt : (made : ℤ) < m := (underMax_some_iff made m).mp hu
      simp only [hu, if_true, hv made]
      exact ih (made + 1) (by omega) (by push_cast; push_cast at h2; omega)
    · have hnl : ¬ (made : ℤ) < m := fun hc => hu ((underMax_some_iff made m).mpr hc)
      have heq : (made : ℤ) = m := by omega
      simp only [hu, Bool.false_eq_true, if_neg, if_false]
      congr 1
      omega

theorem execLoop_unbounded_no_failure (votes : ℕ → Vote) (fuel : ℕ) :
    ∀ made n : ℕ, execLoop none votes fuel made ≠ ExecOutcome.failure n := by
  induction fuel with
  | zero =>
    intro made n
    simp [execLoop, underMax]
  | succ fuel ih =>
    intro made n
    simp only [execLoop, underMax, if_true]
    cases hv : votes made
    · simp
    · exact ih (made + 1) n

/-- Claim C6: with `retryCount = k ≥ 0` the loop makes at most `k + 1`
attempts; whenever it throws `ExecutionError` the attempts list has length
exactly `k + 1`; it does throw when every attempt is decided against (given
fuel to run the loop out); and `retryCount = -1` makes the loop unbounded:
no amount of fuel ever reaches the throw. -/
theorem C6_retry_budget (k : ℤ) (votes : ℕ → Vote) (fuel : ℕ) (hk : 0 ≤ k) :
    (attemptsMade (execute k votes fuel) : ℤ) ≤ k + 1
    ∧ (∀ n, execute k votes fuel = ExecOutcome.failure n → (n : ℤ) = k + 1)
    ∧ ((∀ i, votes i = Vote.voteAgainst) → (k + 1 : ℤ) ≤ (fuel : ℤ) →
        execute k votes fuel = ExecOutcome.failure (k + 1).toNat)
    ∧ (∀ n, execute (-1) votes fuel ≠ ExecOutcome.failure n) := by
  have hmax : maxAttemptsOf k = some (k + 1) := by
    unfold maxAttemptsOf
    rw [if_neg (by omega)]
  have hmaxInf : maxAttemptsOf (-1) = none := by simp [maxAttemptsOf]
  refine ⟨?_, ?_, ?_, ?_⟩
  · unfold execute
    rw [hmax]
    exact execLoop_le (k + 1) votes fuel 0 (by omega)
  · intro n hf
    unfold execute at hf
    rw [hmax] at hf
    exact execLoop_failure_eq (k + 1) votes fuel 0 n (by omega) hf
  · intro hv hfuel
    unfold execute
    rw [hmax]
    exact execLoop_all_against (k + 1) votes hv fuel 0 (by omega) (by omega)
  · intro n
    unfold execute
    rw [hmaxInf]
    exact execLoop_unbounded_no_failure votes fuel 0 n

/-- Witness for C6 at `retryCount = 1`, all attempts against, fuel 5. -/
theorem C6_retry_budget_witness :
    (0 : ℤ) ≤ 1
    ∧ (attemptsMade (execute 1 (fun _ => Vote.voteAgainst) 5) : ℤ) ≤ 1 + 1 :=
  ⟨by decide, (C6_retry_budget 1 (fun _ => Vote.voteAgainst) 5 (by decide)).1⟩

/-- Claim C1 (amended): a release reply of 0 with `n ≥ 1` requested keys is
treated as an against vote carrying a `ResourceLockedError` (the reply test
`result !== keys.length` applies to `releaseLock` like the others), so a
second release of a fully released lock, in which every attempt is decided
against, throws `ExecutionError` once the retry budget `k` is exhausted:
release is not idempotent at the library interface. -/
theorem C1_amended (n : ℕ) (hn : 1 ≤ n) (k : ℤ) (hk : 0 ≤ k) (fuel : ℕ)
    (hfuel : (k + 1 : ℤ) ≤ (fuel : ℤ)) :
    attemptOperationOnClient n (ClientReply.num 0)
      = ClientVote.voteAgainst (RedError.resourceLocked 0 n)
    ∧ execute k (fun _ => Vote.voteAgainst) fuel
        = ExecOutcome.failure (k + 1).toNat := by
  constructor
  · have h0 : ¬ ((0 : ℤ) = (n : ℤ)) := by omega
    simp [attemptOperationOnClient, h0]
  · have hmax : maxAttemptsOf k = some (k + 1) := by
      unfold maxAttemptsOf
      rw [if_neg (by omega)]
    unfold execute
    rw [hmax]
    exact execLoop_all_against (k + 1) (fun _ => Vote.voteAgainst)
      (fun _ => rfl) fuel 0 (by omega) (by omega)

/-- Witness for C1 (amended) at one key, `retryCount = 10`, fuel 11. -/
theorem C1_amended_witness :
    (1 : ℕ) ≤ 1 ∧ (0 : ℤ) ≤ 10 ∧ ((10 : ℤ) + 1) ≤ ((11 : ℕ) : ℤ)
    ∧ (attemptOperationOnClient 1 (ClientReply.num 0)
         = ClientVote.voteAgainst (RedError.resourceLocked 0 1)
       ∧ execute 10 (fun _ => Vote.voteAgainst) 11
           = ExecOutcome.failure ((10 : ℤ) + 1).toNat) :=
  ⟨by decide, by decide, by norm_num,
    C1_amended 1 (by decide) 10 (by decide) 11 (by norm_num)⟩

/-- A `Lock` record (src/index.ts lines 98-115).  `oid` models JS object
identity: each `new Lock(...)` allocation carries an id distinct from the
id of every live object.  `attempts` holds abstract ids of the per-attempt
stats handles. -/
structure Lock where
  oid : ℕ
  resources : List String
  value : String
  attempts : List ℕ
  expiration : ℚ
deriving DecidableEq

/-- The `{attempts, start}` bundle returned by a successful `_execute`. -/
structure ExecOk where
  attempts : List ℕ
  start : ℚ
deriving DecidableEq

/-- The failure modes of `extend`: the synchronous duration error, the
`ExecutionError('Cannot extend an already-expired lock.', [])`, and a
thrown `ExecutionError` from the retry engine carrying its attempts. -/
inductive ExtendError where
  | notInteger
  | alreadyExpired (attempts : List ℕ)
  | noQuorum (attempts : List ℕ)
deriving DecidableEq

/-- The new `Lock` built on a successful extend (src/index.ts line 295):
same resources and value as the existing lock, the fresh attempts list and
start from `_execute`, and the drift-adjusted expiration. -/
def extendedLock (existing : Lock) (duration driftFactor : ℚ) (r : ExecOk)
    (freshOid : ℕ) : Lock :=
  { oid := freshOid
    resources := existing.resources
    value := existing.value
    attempts := r.attempts
    expiration := lockExpiration r.start duration driftFactor }

/-- `extend` (src/index.ts lines 267-296) as a state-passing function.
Inputs: the existing lock, the requested duration, `Date.now()` at the
expiry check, the effective drift factor, the outcome the retry engine
would deliver, and the object id of the would-be `new Lock` allocation.
Output: the final state of the existing lock record, whether `_execute`
was reached (servers contacted), and the result.  The checks appear in
source order: the integer-duration check precedes the expired-lock check;
`existing.expiration = 0` is written only after `_execute` succeeds. -/
def extend (existing : Lock) (duration now driftFactor : ℚ)
    (exec : Except (List ℕ) ExecOk) (freshOid : ℕ) :
    Lock × Bool × Except ExtendError Lock :=
  if (⌊duration⌋ : ℚ) ≠ duration then
    (existing, false, Except.error ExtendError.notInteger)
  else if existing.expiration < now then
    (existing, false, Except.error (ExtendError.alreadyExpired []))
  else
    match exec with
    | .error atts => (existing, true, Except.error (ExtendError.noQuorum atts))
    | .ok r =>
        ({ existing with expiration := 0 }, true,
          Except.ok (extendedLock existing duration driftFactor r freshOid))

/-- Claim C4: a successful extend tombstones the old lock (expiration set
to 0) and returns a new, distinct `Lock` object with the same resources and
value, the fresh attempts list, and the drift-adjusted expiration computed
from the extend attempt's start. -/
theorem C4_extend_success (existing : Lock) (d now f : ℚ) (r : ExecOk)
    (freshOid : ℕ) (hint : (⌊d⌋ : ℚ) = d) (hexp : ¬ existing.expiration < now)
    (hfresh : freshOid ≠ existing.oid) :
    extend existing d now f (Except.ok r) freshOid
      = ({ existing with expiration := 0 }, true,
          Except.ok (extendedLock existing d f r freshOid))
    ∧ (extendedLock existing d f r freshOid).resources = existing.resources
    ∧ (extendedLock existing d f r freshOid).value = existing.value
    ∧ (extendedLock existing d f r freshOid).attempts = r.attempts
    ∧ (extendedLock existing d f r freshOid).expiration
        = lockExpiration r.start d f
    ∧ extendedLock existing d f r freshOid ≠ existing := by
  refine ⟨?_, rfl, rfl, rfl, rfl, ?_⟩
  · unfold extend
    rw [if_neg (by simp [hint]), if_neg hexp]
  · intro hcontra
    exact hfresh (congrArg Lock.oid hcontra)

/-- Witness for C4 at a concrete live lock and successful execute. -/
theorem C4_extend_success_witness :
    (⌊(1000 : ℚ)⌋ : ℚ) = 1000
    ∧ ¬ (Lock.mk 0 ["r"] "v" [] 100).expiration < (50 : ℚ)
    ∧ (1 : ℕ) ≠ 0
    ∧ (extend (Lock.mk 0 ["r"] "v" [] 100) 1000 50 0
          (Except.ok (ExecOk.mk [7] 60)) 1
        = (Lock.mk 0 ["r"] "v" [] 0, true,
            Except.ok (extendedLock (Lock.mk 0 ["r"] "v" [] 100) 1000 0
              (ExecOk.mk [7] 60) 1))
       ∧ (extendedLock (Lock.mk 0 ["r"] "v" [] 100) 1000 0
            (ExecOk.mk [7] 60) 1).resources = ["r"]
       ∧ (extendedLock (Lock.mk 0 ["r"] "v" [] 100) 1000 0
            (ExecOk.mk [7] 60) 1).value = "v"
       ∧ (extendedLock (Lock.mk 0 ["r"] "v" [] 100) 1000 0
            (ExecOk.mk [7] 60) 1).attempts = [7]
       ∧ (extendedLock (Lock.mk 0 ["r"] "v" [] 100) 1000 0
            (ExecOk.mk [7] 60) 1).expiration = lockExpiration 60 1000 0
       ∧ extendedLock (Lock.mk 0 ["r"] "v" [] 100) 1000 0
            (ExecOk.mk [7] 60) 1 ≠ Lock.mk 0 ["r"] "v" [] 100) :=
  ⟨by norm_num, by norm_num, by decide,
    C4_extend_success (Lock.mk 0 ["r"] "v" [] 100) 1000 50 0
      (ExecOk.mk [7] 60) 1 (by norm_num) (by norm_num) (by decide)⟩

/-- Claim C5: the claim states that every extend call on a lock whose
expiration is below the current time fails with the already-expired
`ExecutionError`.  A call with a non-integer duration on such a lock fails
with the synchronous duration error instead, because the integer check
(line 272) precedes the expiry check (line 277). -/
theorem C5_counterexample :
    (Lock.mk 0 ["r"] "v" [] 0).expiration < (1 : ℚ)
    ∧ (extend (Lock.mk 0 ["r"] "v" [] 0) (1/2) 1 (1/100)
          (Except.ok (ExecOk.mk [] 0)) 1).2.2
        ≠ Except.error (ExtendError.alreadyExpired [])
    ∧ (extend (Lock.mk 0 ["r"] "v" [] 0) (1/2) 1 (1/100)
          (Except.ok (ExecOk.mk [] 0)) 1).2.2
        = Except.error ExtendError.notInteger := by
  have hne : ¬ ((⌊(2⁻¹ : ℚ)⌋ : ℚ) = (2⁻¹ : ℚ)) := by norm_num
  refine ⟨by norm_num, ?_, ?_⟩ <;> simp [extend, hne]

/-- Claim C5 (amended): every extend call with an *integer* duration on a
lock whose expiration is strictly below the current time fails with
`ExecutionError('Cannot extend an already-expired lock.', [])` without
contacting any server; and every failing extend call, whatever the reason,
leaves the existing lock record unchanged. -/
theorem C5_amended :
    (∀ (existing : Lock) (d now f : ℚ) (exec : Except (List ℕ) ExecOk)
        (freshOid : ℕ), (⌊d⌋ : ℚ) = d → existing.expiration < now →
        extend existing d now f exec freshOid
          = (existing, false, Except.error (ExtendError.alreadyExpired [])))
    ∧ (∀ (existing : Lock) (d now f : ℚ) (exec : Except (List ℕ) ExecOk)
        (freshOid : ℕ) (e : ExtendError),
        (extend existing d now f exec freshOid).2.2 = Except.error e →
        (extend existing d now f exec freshOid).1 = existing) := by
  constructor
  · intro existing d now f exec freshOid hint hexp
    unfold extend
    rw [if_neg (by simp [hint]), if_pos hexp]
  · intro existing d now f exec freshOid e he
    unfold extend at he ⊢
    by_cases h1 : (⌊d⌋ : ℚ) ≠ d
    · rw [if_pos h1]
    · rw [if_neg h1] at he ⊢
      by_cases h2 : existing.expiration < now
      · rw [if_pos h2]
      · rw [if_neg h2] at he ⊢
        cases exec with
        | error atts => rfl
        | ok r => simp at he

/-- Witness for C5 (amended) at an expired lock with an integer duration. -/
theorem C5_amended_witness :
    (⌊(1000 : ℚ)⌋ : ℚ) = 1000
    ∧ (Lock.mk 0 ["r"] "v" [] 0).expiration < (1 : ℚ)
    ∧ extend (Lock.mk 0 ["r"] "v" [] 0) 1000 1 (1/100)
          (Except.ok (ExecOk.mk [] 0)) 1
        = (Lock.mk 0 ["r"] "v" [] 0, false,
            Except.error (ExtendError.alreadyExpired [])) :=
  ⟨by norm_num, by norm_num,
    C5_amended.1 (Lock.mk 0 ["r"] "v" [] 0) 1000 1 (1/100)
      (Except.ok (ExecOk.mk [] 0)) 1 (by norm_num) (by norm_num)⟩

/-- Event trace entries of `release` (src/index.ts lines 256-262): the
expiration write on line 258 happens strictly before `_execute` fans out to
the servers on line 261. -/
inductive RedlockEvent where
  | setExpiration (v : ℚ)
  | serverContact
deriving DecidableEq

/-- `release` as a state-passing function: it sets `lock.expiration = 0`
first, then runs `_execute('releaseLock', lock.resources,
[this.settings.db, lock.value])`, whose outcome (returned result or thrown
`ExecutionError`) passes through unchanged; the lock state is updated in
either case. -/
def release (lock : Lock) (exec : Except (List ℕ) ExecOk) :
    Lock × List RedlockEvent × Except (List ℕ) ExecOk :=
  ({ lock with expiration := 0 },
   [RedlockEvent.setExpiration 0, RedlockEvent.serverContact],
   exec)

/-- Claim C8: `release` sets the lock's expiration to 0 before any server
is contacted (the expiration write precedes the server contact in the
event trace), and the expiration stays 0 whether the quorum release
returns or throws `ExecutionError`. -/
theorem C8_release_tombstones (lock : Lock) (exec : Except (List ℕ) ExecOk) :
    (release lock exec).1.expiration = 0
    ∧ (release lock exec).1 = { lock with expiration := 0 }
    ∧ (release lock exec).2.1
        = [RedlockEvent.setExpiration 0, RedlockEvent.serverContact]
    ∧ (∀ atts, exec = Except.error atts → (release lock exec).1.expiration = 0)
    ∧ (∀ r, exec = Except.ok r → (release lock exec).1.expiration = 0) :=
  ⟨rfl, rfl, rfl, fun _ _ => rfl, fun _ _ => rfl⟩

/-- Per-call settings overrides (the optional `settings` argument of
`acquire`, `extend` and `release`). -/
structure PartialSettings where
  driftFactor : Option ℚ
  retryCount : Option ℤ
  retryDelay : Option ℤ
  retryJitter : Option ℤ
  automaticExtensionThreshold : Option ℤ
  db : Option ℤ
deriving DecidableEq

/-- Instance-level resolved settings (`this.settings`). -/
structure RedSettings where
  driftFactor : ℚ
  retryCount : ℤ
  retryDelay : ℤ
  retryJitter : ℤ
  automaticExtensionThreshold : ℤ
  db : ℤ
deriving DecidableEq

/-- The spread merge `{...this.settings, ..._settings}` performed inside
`_execute` (src/index.ts lines 309-314); it feeds only the retry loop. -/
def mergeSettings (inst : RedSettings) (call : Option PartialSettings) :
    RedSettings :=
  match call with
  | none => inst
  | some c =>
      { driftFactor := c.driftFactor.getD inst.driftFactor
        retryCount := c.retryCount.getD inst.retryCount
        retryDelay := c.retryDelay.getD inst.retryDelay
        retryJitter := c.retryJitter.getD inst.retryJitter
        automaticExtensionThreshold :=
          c.automaticExtensionThreshold.getD inst.automaticExtensionThreshold
        db := c.db.getD inst.db }

/-- One positional script argument as sent to the remote command. -/
inductive ScriptArg where
  | int (i : ℤ)
  | str (s : String)
  | num (q : ℚ)
deriving DecidableEq

/-- Args of the remote `acquireLock` call (src/index.ts line 227):
`[this.settings.db, value, duration]` — built from the instance settings
before `_execute` ever sees the per-call settings. -/
def acquireRemoteArgs (inst : RedSettings) (call : Option PartialSettings)
    (value : String) (duration : ℚ) : List ScriptArg :=
  [ScriptArg.int inst.db, ScriptArg.str value, ScriptArg.num duration]

/-- Args of the remote `extendLock` call (src/index.ts line 284):
`[this.settings.db, existing.value, duration]`. -/
def extendRemoteArgs (inst : RedSettings) (call : Option PartialSettings)
    (value : String) (duration : ℚ) : List ScriptArg :=
  [ScriptArg.int inst.db, ScriptArg.str value, ScriptArg.num duration]

/-- Args of the remote `releaseLock` call (src/index.ts line 261):
`[this.settings.db, lock.value]`. -/
def releaseRemoteArgs (inst : RedSettings) (call : Option PartialSettings)
    (value : String) : List ScriptArg :=
  [ScriptArg.int inst.db, ScriptArg.str value]

/-- Claim C9: for acquire, extend and release the db index sent to the
servers is always the instance-level `this.settings.db`; varying the
per-call settings — including their `db` field, which does reach the
merged settings used by the retry loop — never changes the script
arguments, whose head is always the instance db. -/
theorem C9_db_from_instance (inst : RedSettings)
    (call call' : Option PartialSettings) (value : String) (d : ℚ) :
    acquireRemoteArgs inst call value d = acquireRemoteArgs inst call' value d
    ∧ (acquireRemoteArgs inst call value d).head? = some (ScriptArg.int inst.db)
    ∧ extendRemoteArgs inst call value d = extendRemoteArgs inst call' value d
    ∧ (extendRemoteArgs inst call value d).head? = some (ScriptArg.int inst.db)
    ∧ releaseRemoteArgs inst call value = releaseRemoteArgs inst call' value
    ∧ (releaseRemoteArgs inst call value).head? = some (ScriptArg.int inst.db) :=
  ⟨rfl, rfl, rfl, rfl, rfl, rfl⟩
